import Mathlib

/-!
Verification of the SlideToObsidian conversion pipeline.

Shallow embedding of the pure core of the repository:
  * `split_markdown_by_slides` and `build_markdown` from `src/markdown_builder.py`,
  * the speaker-note normalization and the sequencing of `convert_one` from
    `src/converter.py` (effectful sub-steps are abstracted into an explicit
    environment of outcomes),
  * `convert_one_worker` from `src/worker.py`,
  * the worker-count computation and the empty-input short-circuit of
    `run_conversion` from `main.py`.

Python strings are modelled as `List Char` (`Str`); Python `int` as `Int`
where a sign matters and as `Nat` where the source only ever sees
non-negative values.  Whitespace is the ASCII whitespace class
`' '  '\t'  '\n'  '\r'  '\x0b'  '\x0c'` used by both `str.strip` and the
regex class `\s` on the ASCII inputs this pipeline handles.
-/

/-- Python strings, modelled as lists of characters. -/
abbrev Str := List Char

/-- ASCII whitespace, as recognised by Python `str.strip` and regex `\s`. -/
def isPySpace (c : Char) : Bool :=
  c == ' ' || c == '\t' || c == '\n' || c == '\r' || c == '\x0b' || c == '\x0c'

/-- Leading-whitespace removal (the left half of Python `str.strip`). -/
def ltrim (s : Str) : Str := s.dropWhile isPySpace

/-- Trailing-whitespace removal (the right half of Python `str.strip`). -/
def rtrim (s : Str) : Str := (s.reverse.dropWhile isPySpace).reverse

/-- Python `str.strip()`: remove leading and trailing whitespace. -/
def strip (s : Str) : Str := rtrim (ltrim s)

/-- The regex check `re.match(r"^#{1,6}\s", s)` of `markdown_builder.py`:
does `s` start with one to six `#` characters followed by a whitespace
character?  (With backtracking, the regex matches iff the maximal leading
run of `#` has length 1..6 and is followed by whitespace.) -/
def isHeadingStart (s : Str) : Bool :=
  let m := (s.takeWhile (· == '#')).length
  if 1 ≤ m ∧ m ≤ 6 then
    match s.drop m with
    | c :: _ => isPySpace c
    | [] => false
  else false

/-- The split `re.split(r"\n(?=#{1,6}\s)", s)` of `markdown_builder.py`,
line 22: cut at every newline that is immediately followed by a heading
marker; the newline is consumed, the heading stays with its part.
`acc` holds the (reversed) characters of the part being accumulated. -/
def splitHeads (acc : Str) : Str → List Str
  | [] => [acc.reverse]
  | '\n' :: rest =>
      if isHeadingStart rest then acc.reverse :: splitHeads [] rest
      else splitHeads ('\n' :: acc) rest
  | c :: rest => splitHeads (c :: acc) rest

/-- The shared tail of `split_markdown_by_slides` (`markdown_builder.py`,
lines 40-48): if there are at least `n` parts, return the first `n`
stripped; otherwise strip all parts and right-pad with empty strings. -/
def tailAssign (parts : List Str) (n : Nat) : List Str :=
  if n ≤ parts.length then (parts.take n).map strip
  else parts.map strip ++ List.replicate (n - parts.length) []

/-- `split_markdown_by_slides` from `src/markdown_builder.py`, lines 6-48.
The Segmenter: split the markitdown blob into one chunk per slide.
Note the first guard: for falsy `full_md` or `slide_count <= 0` Python
returns `[""] * max(1, slide_count) if slide_count else []`, which is
`[""]` (length 1) for every negative `slide_count`. -/
def split_markdown_by_slides (full_md : Str) (slide_count : Int) : List Str :=
  if full_md = [] ∨ slide_count ≤ 0 then
    if slide_count ≠ 0 then List.replicate (max 1 slide_count).toNat [] else []
  else
    let n : Nat := slide_count.toNat
    let stripped := strip full_md
    if stripped = [] then List.replicate n []
    else
      let parts := splitHeads [] stripped
      if parts ≠ [] ∧ isHeadingStart (strip (parts.headD [])) = false then
        if parts.length ≤ n then
          (List.range n).map (fun i =>
            if i = 0 then parts.headD []
            else if i < parts.length then strip (parts.getD i [])
            else [])
        else tailAssign parts n
      else tailAssign parts n

/-! ## DocumentAssembler (`build_markdown`, `src/markdown_builder.py` lines 51-104) -/

/-- Python `s.replace("\\", "\\\\")`. -/
def escBS (s : Str) : Str := s.flatMap (fun c => if c = '\\' then ['\\', '\\'] else [c])

/-- Python `s.replace('"', '\\"')`. -/
def escQ (s : Str) : Str := s.flatMap (fun c => if c = '"' then ['\\', '"'] else [c])

/-- Python `s.replace("\n", " ")`. -/
def escNL (s : Str) : Str := s.map (fun c => if c = '\n' then ' ' else c)

/-- YAML escaping of one speaker note (`markdown_builder.py` line 82). -/
def escNote (s : Str) : Str := escNL (escQ (escBS s))

/-- YAML escaping of the title value (`markdown_builder.py` line 86). -/
def escTitle (s : Str) : Str := escQ (escBS s)

/-- One frontmatter list entry `  - "<escaped note>"`. -/
def noteLine (s : Str) : Str := ("  - \"").toList ++ escNote s ++ ['"']

/-- The frontmatter entry `title: "<escaped title>"`. -/
def titleLine (t : Str) : Str := ("title: \"").toList ++ escTitle t ++ ['"']

/-- The frontmatter block of `build_markdown` (lines 66-89): emitted only when
the title is truthy or some note is non-empty; `title` first, then the
`speaker_notes` list restricted to non-empty notes (insertion order of the
Python dict). -/
def frontmatterLines (title : Option Str) (speaker_notes : List Str) : List Str :=
  let nfy := speaker_notes.filter (fun s => !s.isEmpty)
  let hasTitle : Bool := match title with | some t => !t.isEmpty | none => false
  if hasTitle || !nfy.isEmpty then
    ("---").toList ::
      ((match title with
        | some t => if t.isEmpty then [] else [titleLine t]
        | none => [])
      ++ (if nfy.isEmpty then [] else ("speaker_notes:").toList :: nfy.map noteLine)
      ++ [("---").toList, []])
  else []

/-- Decimal rendering of a natural number (Python `f"{n}"`), with a fuel
argument so that the recursion is structural; `natToStrGo fuel m acc`
prepends the digits of `m` to `acc`, and `fuel ≥ m` suffices. -/
def natToStrGo : Nat → Nat → Str → Str
  | 0, _, acc => acc
  | fuel + 1, m, acc =>
      if m = 0 then acc
      else natToStrGo fuel (m / 10) (Char.ofNat (48 + m % 10) :: acc)

/-- Decimal rendering of a natural number (Python `f"{n}"`). -/
def natToStr (n : Nat) : Str := if n = 0 then ['0'] else natToStrGo (n + 1) n []

/-- The embed-reference line `![[<pdf_ref>#page=<k>]]` (line 97). -/
def embedLine (pdf_ref : Str) (k : Nat) : Str :=
  ("![[").toList ++ pdf_ref ++ ("#page=").toList ++ natToStr k ++ ("]]").toList

/-- The lines one slide contributes to the body (lines 97-102): the embed
reference, a blank line, the stripped section text with a blank line when
the section is truthy, and a final blank line. -/
def slideBlock (pdf_ref : Str) (k : Nat) (sec : Str) : List Str :=
  [embedLine pdf_ref k, []] ++ (if sec.isEmpty then [] else [strip sec, []]) ++ [[]]

/-- The body lines for the slides numbered `k, k+1, ...` (the
`enumerate(sections, start=1)` loop of lines 96-102, entered with `k = 1`). -/
def bodyLines (pdf_ref : Str) (k : Nat) : List Str → List Str
  | [] => []
  | s :: rest => slideBlock pdf_ref k s ++ bodyLines pdf_ref (k + 1) rest

/-- Section-list normalization inside `build_markdown` (lines 93-94):
right-pad with empty strings when too short, then truncate to
`slide_count`. -/
def normalizeSections (body_sections : List Str) (slide_count : Nat) : List Str :=
  (if slide_count ≤ body_sections.length then body_sections
   else body_sections ++ List.replicate (slide_count - body_sections.length) []).take slide_count

/-- Python `"\n".join(lines)`. -/
def joinLines : List Str → Str
  | [] => []
  | [l] => l
  | l :: ls => l ++ '\n' :: joinLines ls

/-- `build_markdown` from `src/markdown_builder.py`, lines 51-104:
frontmatter, then one block per slide over the normalized sections,
joined with newlines, stripped, with one trailing newline. -/
def build_markdown (pdf_basename : Str) (slide_count : Nat)
    (speaker_notes : List Str) (body_sections : List Str) (title : Option Str) : Str :=
  let pdf_ref := pdf_basename ++ (".pdf").toList
  let secs := normalizeSections body_sections slide_count
  let lns := frontmatterLines title speaker_notes ++ bodyLines pdf_ref 1 secs
  strip (joinLines lns) ++ ['\n']

/-! ## Parsing the embed-reference pattern back out (spec §8 round-trip) -/

/-- Split a string at every newline character (each `\n` separates lines;
the empty string has one empty line). -/
def splitOnNl : Str → List Str
  | [] => [[]]
  | '\n' :: rest => [] :: splitOnNl rest
  | c :: rest =>
      match splitOnNl rest with
      | [] => [[c]]
      | l :: ls => (c :: l) :: ls

/-- Try to read a whole line as the embed-reference pattern
`![[<basename>.pdf#page=<digits>]]`, returning the page number. -/
def parsePage (basename : Str) (l : Str) : Option Nat :=
  let pre := ("![[").toList ++ basename ++ (".pdf#page=").toList
  if l.take pre.length = pre then
    let rest := l.drop pre.length
    if 2 ≤ rest.length ∧ rest.drop (rest.length - 2) = ("]]").toList then
      let ds := rest.take (rest.length - 2)
      if ds ≠ [] ∧ ds.all Char.isDigit then
        some (ds.foldl (fun a c => 10 * a + (c.toNat - 48)) 0)
      else none
    else none
  else none

/-- All embed references of a document, line by line, in order. -/
def parseEmbedRefs (basename : Str) (s : Str) : List Nat :=
  (splitOnNl s).filterMap (parsePage basename)


/-- The embed references contributed by one physical line of the output. -/
def lineRefs (basename : Str) (l : Str) : List Nat :=
  (splitOnNl l).filterMap (parsePage basename)

/-- Value of `m`'s decimal digits prepended before an accumulator value
`a` (proof-level companion of `natToStrGo`). -/
def vShift (a : Nat) (m : Nat) : Nat :=
  if h : m = 0 then a else 10 * vShift a (m / 10) + m % 10
decreasing_by exact Nat.div_lt_self (Nat.pos_of_ne_zero h) (by norm_num)

/-! ## ConversionPipeline (`convert_one`, `src/converter.py` lines 17-76) -/

/-- The result record `{"success": bool, "path": str, "error": str | None}`
returned by `convert_one` and `convert_one_worker`. -/
structure ConversionResult where
  success : Bool
  path : Str
  error : Option Str
deriving DecidableEq

/-- Outcomes of the effectful sub-steps of one `convert_one` run.
`render` and `writeText` model calls that can raise (`Except.error` carries
`str(e)` of the raised exception); `set_pdf_metadata`, `get_slide_count`,
`get_pdf_page_count` and `get_speaker_notes` catch all exceptions
internally (`pdf_metadata.py`, `pptx_utils.py`), so they are modelled as
plain values; the markitdown call is wrapped in its own inner
`try/except` by `convert_one`, so its outcome is an `Except` as well. -/
structure PipelineEnv where
  render : Except Str (Option Str)
  slideCountPptx : Int
  pdfPageCount : Int
  speakerNotes : List Str
  markitdown : Except Str Str
  writeText : Except Str Unit

/-- Speaker-note normalization of `convert_one` (`converter.py` lines
48-51): right-pad with empty strings up to `slide_count`, then truncate
to `slide_count`. -/
def normalize_speaker_notes (notes : List Str) (slide_count : Int) : List Str :=
  let padded :=
    if (notes.length : Int) < slide_count then
      notes ++ List.replicate (slide_count - (notes.length : Int)).toNat []
    else notes
  padded.take slide_count.toNat

/-- `convert_one` from `src/converter.py`, lines 17-76, over an explicit
environment of sub-step outcomes.  The whole body sits inside one
`try/except Exception` whose handler returns
`{"success": False, "path": ..., "error": str(e)}`; the early returns are
the explicit failure records of lines 37 and 44.  Path resolution and the
`MarkItDown()` construction of lines 26-31 are modelled as pure
(`pptx_path`, `stem` are inputs). -/
def convert_one (pptx_path stem : Str) (env : PipelineEnv) : ConversionResult :=
  match env.render with
  | .error e => ⟨false, pptx_path, some e⟩
  | .ok none => ⟨false, pptx_path, some ("PDF conversion failed (LibreOffice)").toList⟩
  | .ok (some _) =>
    let slide_count : Int :=
      if env.slideCountPptx ≤ 0 then env.pdfPageCount else env.slideCountPptx
    if slide_count ≤ 0 then
      ⟨false, pptx_path, some ("No slides found or invalid file").toList⟩
    else
      let notes := normalize_speaker_notes env.speakerNotes slide_count
      let full_md_body := match env.markitdown with | .ok t => strip t | .error _ => []
      let body_sections := split_markdown_by_slides full_md_body slide_count
      let _md := build_markdown stem slide_count.toNat notes body_sections (some stem)
      match env.writeText with
      | .error e => ⟨false, pptx_path, some e⟩
      | .ok _ => ⟨true, pptx_path, none⟩

/-- `convert_one_worker` from `src/worker.py`, lines 21-41: the worker
wraps the `convert_one` call in its own `try/except`; `setup` models
whether the body up to and including the `convert_one` call machinery
raised (`.error` carries `str(e)`). -/
def convert_one_worker (pptx_path stem : Str) (setup : Except Str PipelineEnv) :
    ConversionResult :=
  match setup with
  | .ok env => convert_one pptx_path stem env
  | .error e => ⟨false, pptx_path, some e⟩

/-- Whether every exception message an environment can inject is
non-empty (the two sub-steps of `convert_one` that can raise). -/
def envErrNonempty (env : PipelineEnv) : Bool :=
  (match env.render with | .error e => !e.isEmpty | .ok _ => true) &&
  (match env.writeText with | .error e => !e.isEmpty | .ok _ => true)

/-! ## BatchScheduler (`run_conversion`, `main.py` lines 42-101) -/

/-- Worker-pool size of `run_conversion` (`main.py` lines 64-65):
`max_workers = max(1, cpu_count - 1)` further capped at the number of
files; `cpu_count` stands for the value of `os.cpu_count() or 2`. -/
def worker_count (cpu_count file_count : Nat) : Nat :=
  min (max 1 (cpu_count - 1)) file_count

/-- Result aggregation of the `as_completed` loop (`main.py` lines 83-97):
count the successes and collect `(path, error)` for the failures, in the
given completion order. -/
def aggregate (results : List ConversionResult) : Nat × List (Str × Str) :=
  (results.countP (·.success),
   results.filterMap (fun r =>
     if r.success then none
     else some (r.path, r.error.getD ("Unknown error").toList)))

/-- `run_conversion` from `main.py`, lines 42-101, with discovery, the
renderer-availability probe and the completion-ordered result list
abstracted into parameters: `files` is the discovered input set,
`renderer_ok` the outcome of `check_libreoffice_installed()`, and
`results` the per-file records in completion order.  The empty-set check
of line 55 precedes the renderer check of lines 57-59, which raises
`RuntimeError` (modelled as `Except.error`) when the renderer is
missing. -/
def run_conversion (files : List Str) (renderer_ok : Bool)
    (results : List ConversionResult) : Except Str (Nat × List (Str × Str)) :=
  if files.isEmpty then .ok (0, [])
  else if !renderer_ok then
    .error ("LibreOffice was not found. Please install it or set LIBREOFFICE_PATH.").toList
  else .ok (aggregate results)

/-! ## Helper lemmas -/

theorem length_tailAssign (parts : List Str) (n : Nat) :
    (tailAssign parts n).length = n := by
  unfold tailAssign
  split_ifs with h
  · simp only [List.length_map, List.length_take]
    omega
  · simp only [List.length_append, List.length_map, List.length_replicate]
    omega

theorem splitHeads_cons (acc : Str) (c : Char) (rest : Str) :
    splitHeads acc (c :: rest) =
      if c = '\n' then
        (if isHeadingStart rest then acc.reverse :: splitHeads [] rest
         else splitHeads ('\n' :: acc) rest)
      else splitHeads (c :: acc) rest := by
  by_cases hc : c = '\n'
  · subst hc; simp [splitHeads]
  · rw [if_neg hc]
    rw [splitHeads.eq_def]
    split
    · simp_all
    · simp_all
    · rename_i heq
      injection heq with h1 h2
      subst h1; subst h2; rfl

theorem splitHeads_ne_nil (acc s : Str) : splitHeads acc s ≠ [] := by
  induction s generalizing acc with
  | nil => simp [splitHeads]
  | cons c rest ih =>
      rw [splitHeads_cons]
      split_ifs with hc hh
      · simp
      · exact ih ('\n' :: acc)
      · exact ih (c :: acc)

theorem dropWhile_head_false {p : Char → Bool} {l : List Char} {c : Char} {t : List Char}
    (h : l.dropWhile p = c :: t) : p c = false := by
  induction l with
  | nil => simp at h
  | cons a l ih =>
      rw [List.dropWhile_cons] at h
      split at h
      · exact ih h
      · cases h
        simp_all

theorem dropWhile_idem (p : Char → Bool) (l : List Char) :
    (l.dropWhile p).dropWhile p = l.dropWhile p := by
  cases h : l.dropWhile p with
  | nil => rfl
  | cons c t =>
      have hc := dropWhile_head_false h
      rw [List.dropWhile_cons, hc]
      simp

theorem rtrim_prefix (x : Str) : rtrim x <+: x := by
  obtain ⟨t, ht⟩ :=
    (List.dropWhile_suffix isPySpace : x.reverse.dropWhile isPySpace <:+ x.reverse)
  refine ⟨t.reverse, ?_⟩
  show (x.reverse.dropWhile isPySpace).reverse ++ t.reverse = x
  rw [← List.reverse_append, ht, List.reverse_reverse]

theorem prefix_of_cons {y : Str} {c : Char} {t : Str} (h : y <+: (c :: t)) :
    y = [] ∨ ∃ t', y = c :: t' := by
  obtain ⟨u, hu⟩ := h
  cases y with
  | nil => exact Or.inl rfl
  | cons a y' =>
      right
      injection hu with h1 _
      exact ⟨y', by rw [h1]⟩

theorem ltrim_strip (s : Str) : ltrim (strip s) = strip s := by
  unfold strip
  cases hx : ltrim s with
  | nil => simp [rtrim, ltrim]
  | cons c t =>
      have hc : isPySpace c = false := dropWhile_head_false hx
      rcases prefix_of_cons (hx ▸ rtrim_prefix (ltrim s)) with h | ⟨t', h⟩
      · rw [h]; rfl
      · rw [h, ltrim, List.dropWhile_cons, hc]
        simp

theorem rtrim_strip (s : Str) : rtrim (strip s) = strip s := by
  unfold strip rtrim
  rw [List.reverse_reverse, dropWhile_idem]

theorem strip_idem (s : Str) : strip (strip s) = strip s := by
  conv_lhs => rw [strip, ltrim_strip]
  exact rtrim_strip s

theorem strip_nil : strip [] = [] := rfl

theorem strip_head_not_space {s : Str} {c : Char} {t : Str} (h : strip s = c :: t) :
    isPySpace c = false := by
  have h2 := ltrim_strip s
  rw [h] at h2
  by_contra hb
  have hb' : isPySpace c = true := by simpa using hb
  rw [ltrim, List.dropWhile_cons, hb', if_pos rfl] at h2
  have hlen := congrArg List.length h2
  have hle :=
    (List.dropWhile_suffix isPySpace : t.dropWhile isPySpace <:+ t).sublist.length_le
  simp only [List.length_cons] at hlen
  omega

theorem strip_reverse_head_not_space {s : Str} {c : Char} {t : Str}
    (h : (strip s).reverse = c :: t) : isPySpace c = false := by
  have : (strip s).reverse = ((ltrim s).reverse).dropWhile isPySpace := by
    rw [strip, rtrim, List.reverse_reverse]
  exact dropWhile_head_false (this ▸ h)

theorem normalizeSections_length (bs : List Str) (n : Nat) :
    (normalizeSections bs n).length = n := by
  unfold normalizeSections
  split_ifs with h
  · simp only [List.length_take]
    omega
  · simp only [List.length_take, List.length_append, List.length_replicate]
    omega

theorem normalizeSections_self {bs : List Str} {n : Nat} (h : bs.length = n) :
    normalizeSections bs n = bs := by
  subst h
  unfold normalizeSections
  rw [if_pos le_rfl, List.take_length]

theorem convert_one_cases (p stem : Str) (env : PipelineEnv) :
    convert_one p stem env = ⟨true, p, none⟩ ∨
    ∃ e, convert_one p stem env = ⟨false, p, some e⟩ := by
  obtain ⟨render, sc, pc, notes, mkd, wt⟩ := env
  cases render with
  | error e => exact Or.inr ⟨e, rfl⟩
  | ok o =>
      cases o with
      | none => exact Or.inr ⟨_, rfl⟩
      | some pdf =>
          simp only [convert_one]
          cases wt with
          | error e => split_ifs <;> exact Or.inr ⟨_, rfl⟩
          | ok u =>
              split_ifs <;>
                first
                  | exact Or.inr ⟨_, rfl⟩
                  | exact Or.inl rfl

/-! ## Claim theorems -/

/-- C4 counterexample: on the Scenario 3 input the Segmenter does NOT
return the spec's outputs with heading markers removed — the code only
strips whitespace and keeps the `# ` markers. -/
theorem C4_counterexample :
    split_markdown_by_slides ("Intro text\n# Slide One\nbody1\n# Slide Two\nbody2").toList 3 ≠
      [("Intro text").toList, ("Slide One\nbody1").toList, ("Slide Two\nbody2").toList] := by
  decide

/-- C4 (amended): on the Scenario 3 and Scenario 4 inputs the Segmenter
returns the stated chunking but with the heading markers retained:
`["Intro text", "# Slide One\nbody1", "# Slide Two\nbody2"]` for N=3 and
`["# A\nx", "# B\ny"]` for N=2. -/
theorem C4_scenarios :
    split_markdown_by_slides ("Intro text\n# Slide One\nbody1\n# Slide Two\nbody2").toList 3 =
      [("Intro text").toList, ("# Slide One\nbody1").toList, ("# Slide Two\nbody2").toList] ∧
    split_markdown_by_slides ("# A\nx\n# B\ny\n# C\nz\n# D\nw").toList 2 =
      [("# A\nx").toList, ("# B\ny").toList] := by
  constructor <;> decide

/-- C6: the speaker-note normalization of `convert_one` yields a list of
length exactly N, equal to the first N entries when K ≥ N and to the
original list right-padded with empty strings when K < N. -/
theorem C6_annotation_normalization :
    ∀ (raw : List Str) (n : Int), 1 ≤ n →
      ((normalize_speaker_notes raw n).length : Int) = n ∧
      (n ≤ (raw.length : Int) → normalize_speaker_notes raw n = raw.take n.toNat) ∧
      ((raw.length : Int) < n →
        normalize_speaker_notes raw n =
          raw ++ List.replicate (n.toNat - raw.length) []) := by
  intro raw n hn
  unfold normalize_speaker_notes
  split_ifs with h
  · refine ⟨?_, ?_, ?_⟩
    · simp only [List.length_take, List.length_append, List.length_replicate]
      omega
    · intro hc; omega
    · intro _
      have hlen : (raw ++ List.replicate (n - (raw.length : Int)).toNat []).length = n.toNat := by
        simp only [List.length_append, List.length_replicate]
        omega
      rw [List.take_of_length_le (le_of_eq hlen)]
      congr 1
      congr 1
      omega
  · refine ⟨?_, fun _ => rfl, ?_⟩
    · simp only [List.length_take]
      omega
    · intro hc; omega

/-- C6 witness: normalization at K=1, N=2 pads; hypotheses discharged at
a concrete input. -/
theorem C6_annotation_normalization_witness :
    ((normalize_speaker_notes [['a']] 2).length : Int) = 2 ∧
    (2 ≤ (([['a']] : List Str).length : Int) →
      normalize_speaker_notes [['a']] 2 = ([['a']] : List Str).take (2 : Int).toNat) ∧
    ((([['a']] : List Str).length : Int) < 2 →
      normalize_speaker_notes [['a']] 2 =
        [['a']] ++ List.replicate ((2 : Int).toNat - ([['a']] : List Str).length) []) :=
  C6_annotation_normalization [['a']] 2 (by decide)

/-- C7 counterexample: with available parallelism P = 1 and one file, the
pool size is `max(1, 0) = 1`, which exceeds the claimed bound
`min(P-1, F) = 0`. -/
theorem C7_counterexample :
    ¬ (worker_count 1 1 ≤ min (1 - 1) 1 ∧ 1 ≤ worker_count 1 1) := by
  decide

/-- C7 (amended): for P ≥ 1 and F ≥ 1 the worker count is at least 1, at
most `max(1, P-1)`, at most F; the claimed bound `min(P-1, F)` holds
whenever P ≥ 2. -/
theorem C7_worker_count_bounds :
    ∀ p f : Nat, 1 ≤ p → 1 ≤ f →
      1 ≤ worker_count p f ∧ worker_count p f ≤ max 1 (p - 1) ∧
      worker_count p f ≤ f ∧ (2 ≤ p → worker_count p f ≤ min (p - 1) f) := by
  intro p f hp hf
  unfold worker_count
  omega

/-- C7 witness: the bounds at P = 4, F = 2. -/
theorem C7_worker_count_bounds_witness :
    1 ≤ worker_count 4 2 ∧ worker_count 4 2 ≤ max 1 (4 - 1) ∧
    worker_count 4 2 ≤ 2 ∧ (2 ≤ 4 → worker_count 4 2 ≤ min (4 - 1) 2) :=
  C7_worker_count_bounds 4 2 (by decide) (by decide)

/-- C8: on an empty discovered input set, `run_conversion` returns
`(0, [])` regardless of renderer availability and of any per-file
outcomes: the renderer precondition check (and the renderer itself) is
never reached. -/
theorem C8_empty_input :
    ∀ (renderer_ok : Bool) (results : List ConversionResult),
      run_conversion [] renderer_ok results = .ok (0, []) := by
  intro renderer_ok results
  rfl

/-- C3: every result of `convert_one` and of `convert_one_worker`
satisfies the invariant: success implies the error field is `none`, and
failure implies it is `some` string. -/
theorem C3_result_invariant :
    ∀ (p stem : Str) (env : PipelineEnv) (setup : Except Str PipelineEnv),
      (((convert_one p stem env).success = true ∧ (convert_one p stem env).error = none) ∨
       ((convert_one p stem env).success = false ∧ (convert_one p stem env).error ≠ none)) ∧
      (((convert_one_worker p stem setup).success = true ∧
          (convert_one_worker p stem setup).error = none) ∨
       ((convert_one_worker p stem setup).success = false ∧
          (convert_one_worker p stem setup).error ≠ none)) := by
  intro p stem env setup
  constructor
  · rcases convert_one_cases p stem env with h | ⟨e, h⟩ <;> rw [h] <;> simp
  · cases setup with
    | error e => simp [convert_one_worker]
    | ok env' =>
        rcases convert_one_cases p stem env' with h | ⟨e, h⟩ <;>
          simp [convert_one_worker, h]

/-- C2 counterexample: when the final file write raises an exception whose
message is empty (`str(e) == ""`), the caught failure record carries an
empty error string, refuting the claimed non-emptiness (`[]` is the empty
string). -/
theorem C2_counterexample :
    (convert_one ['a'] ['a']
        ⟨.ok (some ['p']), 1, 0, [], .ok [], .error []⟩).success = false ∧
    (convert_one ['a'] ['a']
        ⟨.ok (some ['p']), 1, 0, [], .ok [], .error []⟩).error = some [] := by
  decide

/-- C2 (amended): `convert_one` is a total function of its sub-step
outcomes — every failure path is caught and returned as a record with
success=false and the error string present; that string is non-empty
provided every exception message the environment can inject is
non-empty (the explicitly constructed failure messages are non-empty
literals). -/
theorem C2_no_raise :
    ∀ (p stem : Str) (env : PipelineEnv), envErrNonempty env = true →
      ((convert_one p stem env).success = true ∧ (convert_one p stem env).error = none) ∨
      ((convert_one p stem env).success = false ∧
        ∃ e, (convert_one p stem env).error = some e ∧ e ≠ []) := by
  intro p stem env henv
  obtain ⟨render, sc, pc, notes, mkd, wt⟩ := env
  unfold envErrNonempty at henv
  simp only [Bool.and_eq_true] at henv
  cases render with
  | error e =>
      right
      refine ⟨rfl, e, rfl, ?_⟩
      have := henv.1
      simp only [Bool.not_eq_true'] at this
      simpa [List.isEmpty_iff] using this
  | ok o =>
      cases o with
      | none =>
          right
          exact ⟨rfl, _, rfl, by decide⟩
      | some pdf =>
          simp only [convert_one]
          cases wt with
          | error e =>
              have he := henv.2
              simp only [Bool.not_eq_true'] at he
              split_ifs <;> right <;>
                first
                  | exact ⟨rfl, _, rfl, by decide⟩
                  | exact ⟨rfl, e, rfl, by simpa [List.isEmpty_iff] using he⟩
          | ok u =>
              split_ifs <;>
                first
                  | (right; exact ⟨rfl, _, rfl, by decide⟩)
                  | exact Or.inl ⟨rfl, rfl⟩

/-- C2 witness: a fully successful environment, with the non-emptiness
hypothesis discharged concretely. -/
theorem C2_no_raise_witness :
    (convert_one ['a'] ['b'] ⟨.ok (some ['p']), 1, 0, [], .ok [], .ok ()⟩).success = true ∧
    (convert_one ['a'] ['b'] ⟨.ok (some ['p']), 1, 0, [], .ok [], .ok ()⟩).error = none :=
  (C2_no_raise ['a'] ['b'] ⟨.ok (some ['p']), 1, 0, [], .ok [], .ok ()⟩
      (by decide)).resolve_right (fun h => absurd h.1 (by decide))

/-- C10: `build_markdown` tolerates a section list whose length differs
from `slide_count`: its internal normalization truncates to the first N
when too long and right-pads with empty strings when too short, always
yielding exactly N per-slide sections, and the assembled document equals
the one built from the normalized list. -/
theorem C10_build_markdown_tolerant :
    ∀ (basename : Str) (n : Nat) (notes bs : List Str) (title : Option Str),
      (normalizeSections bs n).length = n ∧
      (n ≤ bs.length → normalizeSections bs n = bs.take n) ∧
      (bs.length < n →
        normalizeSections bs n = bs ++ List.replicate (n - bs.length) []) ∧
      build_markdown basename n notes bs title =
        build_markdown basename n notes (normalizeSections bs n) title := by
  intro basename n notes bs title
  refine ⟨normalizeSections_length bs n, ?_, ?_, ?_⟩
  · intro h
    unfold normalizeSections
    rw [if_pos h]
  · intro h
    unfold normalizeSections
    rw [if_neg (by omega)]
    refine List.take_of_length_le ?_
    simp only [List.length_append, List.length_replicate]
    omega
  · unfold build_markdown
    rw [normalizeSections_self (normalizeSections_length bs n)]

/-- C1 counterexample: for N = -1 (and any blob) the Segmenter returns
the one-element sequence `[""]`, not the empty sequence the claim states
for N ≤ 0. -/
theorem C1_counterexample :
    split_markdown_by_slides [] (-1) = [[]] ∧ ([[]] : List Str) ≠ [] := by
  decide

/-- C1 (amended): for every blob the Segmenter returns a sequence of
length exactly N when N ≥ 1 (N empty strings when the blob is empty or
whitespace-only), the empty sequence when N = 0, and the one-element
sequence `[""]` when N < 0. -/
theorem C1_length_policy :
    ∀ (blob : Str) (n : Int),
      (1 ≤ n → ((split_markdown_by_slides blob n).length : Int) = n) ∧
      (1 ≤ n → strip blob = [] →
        split_markdown_by_slides blob n = List.replicate n.toNat []) ∧
      (n = 0 → split_markdown_by_slides blob n = []) ∧
      (n < 0 → split_markdown_by_slides blob n = [[]]) := by
  intro blob n
  refine ⟨?_, ?_, ?_, ?_⟩
  · intro hn
    simp only [split_markdown_by_slides]
    split_ifs with h1 h2 h3 h4 h5
    · rw [max_eq_right hn]
      simp only [List.length_replicate]
      omega
    · simp only [not_not] at h2
      omega
    · simp only [List.length_replicate]
      omega
    · simp only [List.length_map, List.length_range]
      omega
    · rw [length_tailAssign]
      omega
    · rw [length_tailAssign]
      omega
  · intro hn hs
    simp only [split_markdown_by_slides]
    split_ifs with h1 h2
    · rw [max_eq_right hn]
    · simp only [not_not] at h2
      omega
    · rfl
  · intro h0
    subst h0
    simp only [split_markdown_by_slides]
    rw [if_pos (Or.inr le_rfl), if_neg (by simp)]
  · intro hneg
    simp only [split_markdown_by_slides]
    rw [if_pos (Or.inr (by omega)), if_pos (by omega), max_eq_left (by omega : n ≤ 1)]
    rfl

/-- C1 witness: all four branches exercised at concrete inputs. -/
theorem C1_length_policy_witness :
    ((split_markdown_by_slides ['x'] 2).length : Int) = 2 ∧
    split_markdown_by_slides [' '] 3 = List.replicate (3 : Int).toNat [] ∧
    split_markdown_by_slides ['x'] 0 = [] ∧
    split_markdown_by_slides ['x'] (-2) = [[]] :=
  ⟨(C1_length_policy ['x'] 2).1 (by decide),
   (C1_length_policy [' '] 3).2.1 (by decide) (by decide),
   (C1_length_policy ['x'] 0).2.2.1 rfl,
   (C1_length_policy ['x'] (-2)).2.2.2 (by decide)⟩

theorem splitHeads_headD (s : Str) : ∀ acc : Str, ∃ t u : Str,
    (splitHeads acc s).headD [] = acc.reverse ++ t ∧ t ++ u = s := by
  induction s with
  | nil => exact fun acc => ⟨[], [], by simp [splitHeads], rfl⟩
  | cons c rest ih =>
      intro acc
      rw [splitHeads_cons]
      split_ifs with hc hh
      · exact ⟨[], c :: rest, by simp, rfl⟩
      · obtain ⟨t', u', h1, h2⟩ := ih ('\n' :: acc)
        refine ⟨'\n' :: t', u', ?_, ?_⟩
        · rw [h1]
          simp
        · rw [List.cons_append, h2, hc]
      · obtain ⟨t', u', h1, h2⟩ := ih (c :: acc)
        refine ⟨c :: t', u', ?_, ?_⟩
        · rw [h1]
          simp
        · rw [List.cons_append, h2]

theorem strip_mem_tailAssign {parts : List Str} {k : Nat} {s : Str}
    (h : s ∈ tailAssign parts k) : strip s = s := by
  unfold tailAssign at h
  split_ifs at h
  · obtain ⟨y, _, rfl⟩ := List.mem_map.mp h
    exact strip_idem y
  · rcases List.mem_append.mp h with h' | h'
    · obtain ⟨y, _, rfl⟩ := List.mem_map.mp h'
      exact strip_idem y
    · rw [List.eq_of_mem_replicate h']
      rfl

theorem tailAssign_headD {parts : List Str} {k : Nat}
    (hp : parts ≠ []) (hk : 1 ≤ k) :
    (tailAssign parts k).headD [] = strip (parts.headD []) := by
  obtain ⟨p, rest, rfl⟩ := List.exists_cons_of_ne_nil hp
  obtain ⟨m, rfl⟩ : ∃ m, k = m + 1 := ⟨k - 1, by omega⟩
  unfold tailAssign
  split_ifs
  · rw [List.take_succ_cons]
    rfl
  · rfl

theorem one_le_of_mem_drop_range {k i : Nat} (h : i ∈ (List.range k).drop 1) :
    1 ≤ i := by
  cases k with
  | zero => simp [List.range_zero] at h
  | succ m =>
      rw [List.range_succ_eq_map] at h
      simp only [List.drop_succ_cons, List.drop_zero] at h
      obtain ⟨j, _, rfl⟩ := List.mem_map.mp h
      omega

theorem headD_replicate (k : Nat) : (List.replicate k ([] : Str)).headD [] = [] := by
  cases k <;> rfl

/-- C5 counterexample: for blob `"Intro \n# A\nx"` and N = 2 the first
returned string is the untrimmed `"Intro "` (trailing space kept): not
every returned string is trimmed. -/
theorem C5_counterexample :
    ¬ ∀ s ∈ split_markdown_by_slides ("Intro \n# A\nx").toList 2, strip s = s := by
  decide

/-- C5 (amended): for every blob and N ≥ 1, every returned string except
the first is trimmed; the first is trimmed of leading whitespace but, in
the leading-body-text case, is the raw first candidate part and may keep
trailing whitespace. -/
theorem C5_trimming :
    ∀ (blob : Str) (n : Int), 1 ≤ n →
      ((split_markdown_by_slides blob n).drop 1).all (fun s => strip s == s) = true ∧
      ltrim ((split_markdown_by_slides blob n).headD []) =
        (split_markdown_by_slides blob n).headD [] := by
  intro blob n hn
  simp only [List.all_eq_true, beq_iff_eq]
  simp only [split_markdown_by_slides]
  split_ifs with h1 h2 h3 h4 h5
  · constructor
    · intro s hs
      rw [List.eq_of_mem_replicate (List.mem_of_mem_drop hs)]
      rfl
    · rw [headD_replicate]
      rfl
  · omega
  · constructor
    · intro s hs
      rw [List.eq_of_mem_replicate (List.mem_of_mem_drop hs)]
      rfl
    · rw [headD_replicate]
      rfl
  · constructor
    · intro s hs
      rw [← List.map_drop] at hs
      obtain ⟨i, hi, rfl⟩ := List.mem_map.mp hs
      have h1i := one_le_of_mem_drop_range hi
      rw [if_neg (by omega)]
      split_ifs
      · exact strip_idem _
      · rfl
    · have hk : 1 ≤ n.toNat := by omega
      obtain ⟨m, hm⟩ : ∃ m, n.toNat = m + 1 := ⟨n.toNat - 1, by omega⟩
      rw [hm, List.range_succ_eq_map]
      simp only [List.map_cons, List.headD_cons, if_true]
      obtain ⟨t, u, ht, hu⟩ := splitHeads_headD (strip blob) []
      simp only [List.reverse_nil, List.nil_append] at ht
      rw [ht]
      cases hsb : strip blob with
      | nil => exact absurd hsb h3
      | cons c t0 =>
          have hc : isPySpace c = false := strip_head_not_space hsb
          rw [hsb] at hu
          cases t with
          | nil => rfl
          | cons c' t' =>
              have : c' = c := by
                rw [List.cons_append] at hu
                injection hu
              subst this
              rw [ltrim, List.dropWhile_cons, hc]
              simp
  · constructor
    · intro s hs
      exact strip_mem_tailAssign (List.mem_of_mem_drop hs)
    · rw [tailAssign_headD (splitHeads_ne_nil _ _) (by omega)]
      exact ltrim_strip _
  · constructor
    · intro s hs
      exact strip_mem_tailAssign (List.mem_of_mem_drop hs)
    · rw [tailAssign_headD (splitHeads_ne_nil _ _) (by omega)]
      exact ltrim_strip _

/-- C5 witness: the amended statement at the Scenario 3 blob with N = 3. -/
theorem C5_trimming_witness :
    ((split_markdown_by_slides ("Intro text\n# One\nb").toList 3).drop 1).all
        (fun s => strip s == s) = true ∧
      ltrim ((split_markdown_by_slides ("Intro text\n# One\nb").toList 3).headD []) =
        (split_markdown_by_slides ("Intro text\n# One\nb").toList 3).headD [] :=
  C5_trimming ("Intro text\n# One\nb").toList 3 (by decide)

/-- C3 witness: the invariant at a concrete environment and a crashing
worker setup. -/
theorem C3_result_invariant_witness :
    (((convert_one ['a'] ['b'] ⟨.ok none, 1, 0, [], .ok [], .ok ()⟩).success = true ∧
      (convert_one ['a'] ['b'] ⟨.ok none, 1, 0, [], .ok [], .ok ()⟩).error = none) ∨
     ((convert_one ['a'] ['b'] ⟨.ok none, 1, 0, [], .ok [], .ok ()⟩).success = false ∧
      (convert_one ['a'] ['b'] ⟨.ok none, 1, 0, [], .ok [], .ok ()⟩).error ≠ none)) ∧
    (((convert_one_worker ['a'] ['b'] (.error ['e'])).success = true ∧
      (convert_one_worker ['a'] ['b'] (.error ['e'])).error = none) ∨
     ((convert_one_worker ['a'] ['b'] (.error ['e'])).success = false ∧
      (convert_one_worker ['a'] ['b'] (.error ['e'])).error ≠ none)) :=
  C3_result_invariant ['a'] ['b'] ⟨.ok none, 1, 0, [], .ok [], .ok ()⟩ (.error ['e'])

/-- C8 witness: the empty input set with an unavailable renderer. -/
theorem C8_empty_input_witness :
    run_conversion [] false [⟨false, ['a'], some ['e']⟩] = .ok (0, []) :=
  C8_empty_input false [⟨false, ['a'], some ['e']⟩]

/-- C10 witness: a one-element section list against N = 2. -/
theorem C10_build_markdown_tolerant_witness :
    (normalizeSections [['x']] 2).length = 2 ∧
    (2 ≤ ([['x']] : List Str).length → normalizeSections [['x']] 2 = ([['x']] : List Str).take 2) ∧
    (([['x']] : List Str).length < 2 →
      normalizeSections [['x']] 2 = [['x']] ++ List.replicate (2 - ([['x']] : List Str).length) []) ∧
    build_markdown ['b'] 2 [] [['x']] none =
      build_markdown ['b'] 2 [] (normalizeSections [['x']] 2) none :=
  C10_build_markdown_tolerant ['b'] 2 [] [['x']] none


theorem splitOnNl_cons (c : Char) (rest : Str) :
    splitOnNl (c :: rest) =
      if c = '\n' then [] :: splitOnNl rest
      else match splitOnNl rest with
        | [] => [[c]]
        | l :: ls => (c :: l) :: ls := by
  by_cases hc : c = '\n'
  · subst hc; simp [splitOnNl]
  · rw [if_neg hc]
    rw [splitOnNl.eq_def]
    split
    · simp_all
    · simp_all
    · rename_i heq
      injection heq with h1 h2
      subst h1; subst h2; rfl

theorem splitOnNl_ne_nil (s : Str) : splitOnNl s ≠ [] := by
  cases s with
  | nil => simp [splitOnNl]
  | cons c rest =>
      rw [splitOnNl_cons]
      split_ifs
      · simp
      · cases h : splitOnNl rest <;> simp

theorem splitOnNl_append_nl (a b : Str) :
    splitOnNl (a ++ '\n' :: b) = splitOnNl a ++ splitOnNl b := by
  induction a with
  | nil => simp [splitOnNl]
  | cons c a' ih =>
      rw [List.cons_append, splitOnNl_cons, splitOnNl_cons c a']
      split_ifs with hc
      · rw [ih, List.cons_append]
      · cases h : splitOnNl a' with
        | nil => exact absurd h (splitOnNl_ne_nil a')
        | cons l ls =>
            rw [ih, h, List.cons_append]
            rfl

theorem splitOnNl_no_nl {l : Str} (h : '\n' ∉ l) : splitOnNl l = [l] := by
  induction l with
  | nil => rfl
  | cons c rest ih =>
      rw [splitOnNl_cons,
        if_neg (fun hc => h (by rw [hc]; exact List.mem_cons_self '\n' rest))]
      rw [ih (fun hm => h (List.mem_cons_of_mem c hm))]

theorem joinLines_cons (l : Str) (ls : List Str) (h : ls ≠ []) :
    joinLines (l :: ls) = l ++ '\n' :: joinLines ls := by
  cases ls with
  | nil => exact absurd rfl h
  | cons y ys => rfl

theorem joinLines_head (l : Str) (ls : List Str) :
    ∃ r : Str, joinLines (l :: ls) = l ++ r := by
  cases ls with
  | nil => exact ⟨[], by simp [joinLines]⟩
  | cons y ys => exact ⟨'\n' :: joinLines (y :: ys), rfl⟩

theorem splitOnNl_joinLines (M : List Str) (h : M ≠ []) :
    splitOnNl (joinLines M) = M.flatMap splitOnNl := by
  induction M with
  | nil => exact absurd rfl h
  | cons l ls ih =>
      cases ls with
      | nil => simp [joinLines, List.flatMap_cons]
      | cons y ys =>
          rw [joinLines_cons l (y :: ys) (by simp), splitOnNl_append_nl,
            List.flatMap_cons, ih (by simp)]

theorem joinLines_append_single (M : List Str) (m : Str) :
    ∃ pre : Str, joinLines (M ++ [m]) = pre ++ m := by
  induction M with
  | nil => exact ⟨[], by simp [joinLines]⟩
  | cons l ls ih =>
      obtain ⟨pre, hpre⟩ := ih
      refine ⟨l ++ '\n' :: pre, ?_⟩
      rw [List.cons_append, joinLines_cons _ _ (by simp), hpre]
      simp

theorem joinLines_append_empty (M : List Str) (h : M ≠ []) :
    joinLines (M ++ [[]]) = joinLines M ++ ['\n'] := by
  induction M with
  | nil => exact absurd rfl h
  | cons l ls ih =>
      cases ls with
      | nil => rfl
      | cons y ys =>
          rw [List.cons_append, joinLines_cons _ _ (by simp),
            joinLines_cons _ (y :: ys) (by simp), ih (by simp)]
          simp

theorem joinLines_append_replicate (M : List Str) (h : M ≠ []) (j : Nat) :
    joinLines (M ++ List.replicate j []) = joinLines M ++ List.replicate j '\n' := by
  induction j with
  | zero => simp
  | succ k ih =>
      rw [List.replicate_succ', ← List.append_assoc,
        joinLines_append_empty (M ++ List.replicate k []) (by simp [h]),
        ih, List.replicate_succ', ← List.append_assoc]

theorem rtrim_append_nl (x : Str) : rtrim (x ++ ['\n']) = rtrim x := by
  have h : (x ++ ['\n']).reverse = '\n' :: x.reverse := by simp
  unfold rtrim
  rw [h, List.dropWhile_cons, if_pos (by decide)]

theorem rtrim_append_replicate (x : Str) (j : Nat) :
    rtrim (x ++ List.replicate j '\n') = rtrim x := by
  induction j with
  | zero => simp
  | succ k ih =>
      rw [List.replicate_succ', ← List.append_assoc, rtrim_append_nl, ih]

theorem rtrim_eq_self {x : Str} {c : Char}
    (h : x.getLast? = some c) (hc : isPySpace c = false) : rtrim x = x := by
  have hrev : x.reverse.head? = some c := by rw [List.head?_reverse, h]
  cases hx : x.reverse with
  | nil => rw [hx] at hrev; simp at hrev
  | cons c' t =>
      rw [hx] at hrev
      injection hrev with hcc
      subst hcc
      unfold rtrim
      rw [hx, List.dropWhile_cons, hc, if_neg (by decide)]
      rw [← hx, List.reverse_reverse]

theorem ltrim_append_of_head {x r : Str} {c : Char}
    (hx : x.head? = some c) (hc : isPySpace c = false) : ltrim (x ++ r) = x ++ r := by
  cases x with
  | nil => simp at hx
  | cons c' t =>
      injection hx with hcc
      subst hcc
      rw [List.cons_append, ltrim, List.dropWhile_cons, hc]
      simp


theorem digitChar_props (d : Nat) (hd : d < 10) :
    (Char.ofNat (48 + d)).toNat - 48 = d ∧ (Char.ofNat (48 + d)).isDigit = true ∧
      Char.ofNat (48 + d) ≠ '\n' := by
  interval_cases d <;> refine ⟨by decide, by decide, by decide⟩

theorem natToStrGo_foldl :
    ∀ (fuel m : Nat) (acc : Str) (a : Nat), m ≤ fuel →
      List.foldl (fun a c => 10 * a + (c.toNat - 48)) a (natToStrGo (fuel + 1) m acc) =
      List.foldl (fun a c => 10 * a + (c.toNat - 48)) (vShift a m) acc := by
  intro fuel
  induction fuel with
  | zero =>
      intro m acc a hm
      have hm0 : m = 0 := Nat.le_zero.mp hm
      subst hm0
      rw [natToStrGo, if_pos rfl, vShift]
      simp
  | succ f ih =>
      intro m acc a hm
      by_cases h0 : m = 0
      · subst h0
        rw [natToStrGo, if_pos rfl, vShift]
        simp
      · rw [natToStrGo, if_neg h0]
        have hdiv : m / 10 ≤ f := by
          have := Nat.div_lt_self (Nat.pos_of_ne_zero h0) (by norm_num : 1 < 10)
          omega
        rw [ih (m / 10) _ a hdiv]
        rw [List.foldl_cons]
        have hd := (digitChar_props (m % 10) (Nat.mod_lt m (by norm_num))).1
        rw [hd]
        conv_rhs => rw [vShift, dif_neg h0]

theorem vShift_zero : ∀ m, vShift 0 m = m := by
  intro m
  induction m using Nat.strong_induction_on with
  | _ m ih =>
      by_cases h0 : m = 0
      · subst h0; rw [vShift]; simp
      · rw [vShift, dif_neg h0,
          ih (m / 10) (Nat.div_lt_self (Nat.pos_of_ne_zero h0) (by norm_num))]
        omega

theorem natToStr_foldl (k : Nat) :
    List.foldl (fun a c => 10 * a + (c.toNat - 48)) 0 (natToStr k) = k := by
  unfold natToStr
  split_ifs with h0
  · subst h0; decide
  · rw [natToStrGo_foldl k k [] 0 le_rfl, vShift_zero]
    rfl

theorem natToStrGo_length (fuel : Nat) :
    ∀ (m : Nat) (acc : Str), acc.length ≤ (natToStrGo fuel m acc).length := by
  induction fuel with
  | zero => intro m acc; rw [natToStrGo]
  | succ f ih =>
      intro m acc
      rw [natToStrGo]
      split_ifs with h0
      · exact le_rfl
      · calc acc.length ≤ (Char.ofNat (48 + m % 10) :: acc).length := by simp
          _ ≤ _ := ih (m / 10) _

theorem natToStr_ne_nil (k : Nat) : natToStr k ≠ [] := by
  unfold natToStr
  split_ifs with h0
  · simp
  · rw [natToStrGo, if_neg h0]
    intro hcon
    have := natToStrGo_length k (k / 10) [Char.ofNat (48 + k % 10)]
    rw [hcon] at this
    simp at this

theorem natToStrGo_digits (fuel : Nat) :
    ∀ (m : Nat) (acc : Str), (∀ c ∈ acc, c.isDigit = true) →
      ∀ c ∈ natToStrGo fuel m acc, c.isDigit = true := by
  induction fuel with
  | zero => intro m acc hacc; rw [natToStrGo]; exact hacc
  | succ f ih =>
      intro m acc hacc
      rw [natToStrGo]
      split_ifs with h0
      · exact hacc
      · refine ih (m / 10) _ ?_
        intro c hc
        rcases List.mem_cons.mp hc with h | h
        · rw [h]
          exact (digitChar_props (m % 10) (Nat.mod_lt m (by norm_num))).2.1
        · exact hacc c h

theorem natToStr_digits (k : Nat) : ∀ c ∈ natToStr k, c.isDigit = true := by
  unfold natToStr
  split_ifs with h0
  · intro c hc
    rw [List.mem_singleton.mp hc]
    decide
  · exact natToStrGo_digits (k + 1) k [] (by simp)

theorem natToStr_no_nl (k : Nat) : '\n' ∉ natToStr k := by
  intro h
  have := natToStr_digits k '\n' h
  simp at this

theorem take_eq_cons_head {l : Str} {c : Char} {r : Str} {n : Nat}
    (h : l.take n = c :: r) : l.head? = some c := by
  cases l with
  | nil => simp at h
  | cons a t =>
      cases n with
      | zero => simp at h
      | succ m =>
          rw [List.take_succ_cons] at h
          injection h with h1 _
          rw [h1]
          rfl

theorem parsePage_none_of_head (b l : Str) (h : l.head? ≠ some '!') :
    parsePage b l = none := by
  simp only [parsePage]
  split_ifs with h1 h2 h3
  · exact absurd (take_eq_cons_head h1) h
  · rfl
  · rfl
  · rfl

theorem embedLine_assoc (b : Str) (k : Nat) :
    embedLine (b ++ (".pdf").toList) k =
      (("![[").toList ++ b ++ (".pdf#page=").toList) ++ (natToStr k ++ ("]]").toList) := by
  have hlit : (".pdf").toList ++ ("#page=").toList = (".pdf#page=").toList := by decide
  simp only [embedLine, ← hlit, List.append_assoc]

theorem parsePage_embedLine (b : Str) (k : Nat) :
    parsePage b (embedLine (b ++ (".pdf").toList) k) = some k := by
  rw [embedLine_assoc]
  simp only [parsePage]
  rw [if_pos (List.take_left ..)]
  rw [List.drop_left]
  have hlen : (natToStr k ++ ("]]").toList).length = (natToStr k).length + 2 := by
    simp
  have hd2 : (natToStr k ++ ("]]").toList).length - 2 = (natToStr k).length := by omega
  rw [if_pos ?hcond]
  case hcond =>
    constructor
    · omega
    · rw [hd2, List.drop_left]
  rw [hd2, List.take_left]
  rw [if_pos ?hds]
  case hds =>
    refine ⟨natToStr_ne_nil k, ?_⟩
    rw [List.all_eq_true]
    intro c hc
    exact natToStr_digits k c hc
  rw [natToStr_foldl]

theorem embedLine_no_nl {b : Str} (hb : '\n' ∉ b) (k : Nat) :
    '\n' ∉ embedLine (b ++ (".pdf").toList) k := by
  intro h
  simp only [embedLine, List.append_assoc] at h
  rcases List.mem_append.mp h with h1 | h1
  · exact absurd h1 (by decide)
  rcases List.mem_append.mp h1 with h2 | h2
  · exact absurd h2 hb
  rcases List.mem_append.mp h2 with h3 | h3
  · exact absurd h3 (by decide)
  rcases List.mem_append.mp h3 with h4 | h4
  · exact absurd h4 (by decide)
  rcases List.mem_append.mp h4 with h5 | h5
  · exact absurd h5 (natToStr_no_nl k)
  · exact absurd h5 (by decide)

theorem lineRefs_empty_line (b : Str) : lineRefs b [] = [] := by
  unfold lineRefs
  rw [show splitOnNl [] = [[]] from rfl, List.filterMap_cons,
    parsePage_none_of_head b [] (by simp)]
  rfl

theorem lineRefs_single {b l : Str} (hnl : '\n' ∉ l) (hh : l.head? ≠ some '!') :
    lineRefs b l = [] := by
  unfold lineRefs
  rw [splitOnNl_no_nl hnl, List.filterMap_cons, parsePage_none_of_head b l hh]
  rfl

theorem lineRefs_embedLine {b : Str} (hb : '\n' ∉ b) (k : Nat) :
    lineRefs b (embedLine (b ++ (".pdf").toList) k) = [k] := by
  unfold lineRefs
  rw [splitOnNl_no_nl (embedLine_no_nl hb k), List.filterMap_cons, parsePage_embedLine]
  rfl

theorem lineRefs_of_all_none {b l : Str}
    (h : ∀ x ∈ splitOnNl l, parsePage b x = none) : lineRefs b l = [] := by
  unfold lineRefs
  exact List.filterMap_eq_nil_iff.mpr h

theorem escNL_no_nl (x : Str) : '\n' ∉ escNL x := by
  intro h
  obtain ⟨y, _, hfy⟩ := List.mem_map.mp h
  by_cases hy : y = '\n' <;> simp [hy] at hfy

theorem escBS_no_nl {x : Str} (h : '\n' ∉ x) : '\n' ∉ escBS x := by
  intro hc
  obtain ⟨y, hy, hin⟩ := List.mem_flatMap.mp hc
  by_cases hby : y = '\\'
  · rw [if_pos hby] at hin
    simp at hin
  · rw [if_neg hby] at hin
    exact h ((List.mem_singleton.mp hin).symm ▸ hy)

theorem escQ_no_nl {x : Str} (h : '\n' ∉ x) : '\n' ∉ escQ x := by
  intro hc
  obtain ⟨y, hy, hin⟩ := List.mem_flatMap.mp hc
  by_cases hby : y = '"'
  · rw [if_pos hby] at hin
    simp at hin
  · rw [if_neg hby] at hin
    exact h ((List.mem_singleton.mp hin).symm ▸ hy)

theorem noteLine_no_nl (s : Str) : '\n' ∉ noteLine s := by
  intro h
  unfold noteLine at h
  rcases List.mem_append.mp h with h1 | h1
  · rcases List.mem_append.mp h1 with h2 | h2
    · exact absurd h2 (by decide)
    · exact escNL_no_nl _ h2
  · exact absurd h1 (by decide)

theorem titleLine_no_nl {t : Str} (ht : '\n' ∉ t) : '\n' ∉ titleLine t := by
  intro h
  unfold titleLine at h
  rcases List.mem_append.mp h with h1 | h1
  · rcases List.mem_append.mp h1 with h2 | h2
    · exact absurd h2 (by decide)
    · exact escQ_no_nl (escBS_no_nl ht) h2
  · exact absurd h1 (by decide)

theorem frontmatterLines_eq (title : Option Str) (notes : List Str) :
    frontmatterLines title notes = [] ∨
    frontmatterLines title notes =
      ("---").toList ::
        ((match title with
          | some t => if t.isEmpty then [] else [titleLine t]
          | none => []) ++
        (if (notes.filter (fun s => !s.isEmpty)).isEmpty then []
         else ("speaker_notes:").toList ::
           (notes.filter (fun s => !s.isEmpty)).map noteLine) ++
        [("---").toList, []]) := by
  simp only [frontmatterLines]
  split_ifs <;> first | exact Or.inl rfl | exact Or.inr rfl

theorem frontmatterLines_shape (title : Option Str) (notes : List Str) :
    frontmatterLines title notes = [] ∨
    ∃ T, frontmatterLines title notes = ("---").toList :: T := by
  rcases frontmatterLines_eq title notes with h | h
  · exact Or.inl h
  · exact Or.inr ⟨_, h⟩

theorem mem_fm {l : Str} {title : Option Str} {notes : List Str}
    (hl : l ∈ frontmatterLines title notes) :
    l = ("---").toList ∨ l = [] ∨ l = ("speaker_notes:").toList ∨
    (∃ t, title = some t ∧ l = titleLine t) ∨ (∃ s, l = noteLine s) := by
  rcases frontmatterLines_eq title notes with he | he
  · rw [he] at hl
    simp at hl
  · rw [he] at hl
    rcases List.mem_cons.mp hl with rfl | hl1
    · exact Or.inl rfl
    rcases List.mem_append.mp hl1 with h1 | h1
    · rcases List.mem_append.mp h1 with h2 | h2
      · cases title with
        | none => simp at h2
        | some t =>
            by_cases hemp : t.isEmpty = true
            · simp [hemp] at h2
            · simp only [if_neg hemp] at h2
              exact Or.inr (Or.inr (Or.inr (Or.inl ⟨t, rfl, List.mem_singleton.mp h2⟩)))
      · by_cases hne : ((notes.filter (fun s => !s.isEmpty)).isEmpty : Bool) = true
        · simp [hne] at h2
        · simp only [if_neg hne] at h2
          rcases List.mem_cons.mp h2 with rfl | h3
          · exact Or.inr (Or.inr (Or.inl rfl))
          · obtain ⟨s, _, rfl⟩ := List.mem_map.mp h3
            exact Or.inr (Or.inr (Or.inr (Or.inr ⟨s, rfl⟩)))
    · rcases List.mem_cons.mp h1 with rfl | h3
      · exact Or.inl rfl
      · exact Or.inr (Or.inl (List.mem_singleton.mp h3))

theorem fm_lineRefs {b : Str} {title : Option Str} {notes : List Str}
    (ht : ∀ t, title = some t → '\n' ∉ t) :
    ∀ l ∈ frontmatterLines title notes, lineRefs b l = [] := by
  intro l hl
  rcases mem_fm hl with rfl | rfl | rfl | ⟨t, htt, rfl⟩ | ⟨s, rfl⟩
  · exact lineRefs_single (by decide) (by decide)
  · exact lineRefs_empty_line b
  · exact lineRefs_single (by decide) (by decide)
  · refine lineRefs_single (titleLine_no_nl (ht t htt)) ?_
    rw [show (titleLine t).head? = some 't' from rfl]
    decide
  · refine lineRefs_single (noteLine_no_nl s) ?_
    rw [show (noteLine s).head? = some ' ' from rfl]
    decide

theorem embedLine_getLast (r : Str) (k : Nat) :
    (embedLine r k).getLast? = some ']' := by
  unfold embedLine
  rw [List.getLast?_append_of_ne_nil]
  · decide
  · decide

theorem body_lineRefs {b : Str} (hb : '\n' ∉ b) :
    ∀ (secs : List Str) (k : Nat),
      (∀ s ∈ secs, ∀ x ∈ splitOnNl (strip s), parsePage b x = none) →
      (bodyLines (b ++ (".pdf").toList) k secs).flatMap (lineRefs b) =
        List.range' k secs.length := by
  intro secs
  induction secs with
  | nil => intro k _; rfl
  | cons s rest ih =>
      intro k h
      have hblock :
          (slideBlock (b ++ (".pdf").toList) k s).flatMap (lineRefs b) = [k] := by
        unfold slideBlock
        split_ifs with hemp
        · simp [List.flatMap_append, List.flatMap_cons, lineRefs_empty_line]
          exact lineRefs_embedLine hb k
        · simp [List.flatMap_append, List.flatMap_cons, lineRefs_empty_line,
            lineRefs_of_all_none (h s (List.mem_cons_self s rest))]
          exact lineRefs_embedLine hb k
      rw [show bodyLines (b ++ (".pdf").toList) k (s :: rest) =
          slideBlock (b ++ (".pdf").toList) k s ++
            bodyLines (b ++ (".pdf").toList) (k + 1) rest from rfl]
      rw [List.flatMap_append, hblock,
        ih (k + 1) (fun s' hs' => h s' (List.mem_cons_of_mem s hs'))]
      rw [show (s :: rest).length = rest.length + 1 from rfl, List.range'_succ]
      rfl

theorem body_decomp (r : Str) :
    ∀ (secs : List Str), secs ≠ [] → ∀ (k : Nat),
      ∃ (M : List Str) (j : Nat) (m : Str) (c : Char),
        bodyLines r k secs = (M ++ [m]) ++ List.replicate j [] ∧
        m.getLast? = some c ∧ isPySpace c = false := by
  intro secs
  induction secs with
  | nil => intro h; exact absurd rfl h
  | cons s rest ih =>
      intro _ k
      cases rest with
      | nil =>
          by_cases hemp : s.isEmpty = true
          · refine ⟨[], 2, embedLine r k, ']', ?_, embedLine_getLast r k, by decide⟩
            show slideBlock r k s ++ [] = _
            unfold slideBlock
            rw [if_pos hemp]
            rfl
          · cases hstr : strip s with
            | nil =>
                refine ⟨[], 4, embedLine r k, ']', ?_, embedLine_getLast r k, by decide⟩
                show slideBlock r k s ++ [] = _
                unfold slideBlock
                rw [if_neg hemp, hstr]
                rfl
            | cons c0 t0 =>
                cases hrev : (strip s).reverse with
                | nil =>
                    rw [List.reverse_eq_nil_iff] at hrev
                    rw [hstr] at hrev
                    simp at hrev
                | cons cr tr =>
                    refine ⟨[embedLine r k, []], 2, strip s, cr, ?_, ?_, ?_⟩
                    · show slideBlock r k s ++ [] = _
                      unfold slideBlock
                      rw [if_neg hemp]
                      rfl
                    · rw [← List.head?_reverse, hrev]
                      rfl
                    · exact strip_reverse_head_not_space hrev
      | cons s2 rest2 =>
          obtain ⟨M', j, m, c, hdec, hlast, hcsp⟩ := ih (by simp) (k + 1)
          refine ⟨slideBlock r k s ++ M', j, m, c, ?_, hlast, hcsp⟩
          rw [show bodyLines r k (s :: s2 :: rest2) =
              slideBlock r k s ++ bodyLines r (k + 1) (s2 :: rest2) from rfl, hdec]
          simp [List.append_assoc]

theorem bodyLines_head (r : Str) (k : Nat) (s : Str) (rest : List Str) :
    ∃ ls, bodyLines r k (s :: rest) = embedLine r k :: ls :=
  ⟨_, rfl⟩

theorem filterMap_flatMap_split (b : Str) (L : List Str) :
    (L.flatMap splitOnNl).filterMap (parsePage b) = L.flatMap (lineRefs b) := by
  induction L with
  | nil => rfl
  | cons x xs ih =>
      rw [List.flatMap_cons, List.filterMap_append, ih, List.flatMap_cons]
      rfl

/-- C9 (amended): for every basename and title without embedded newlines,
N ≥ 1, annotation and section lists of length N whose section texts
contain no line that itself matches the embed-reference pattern, parsing
the pattern back out of the assembled document yields exactly the pages
1..N in ascending order. -/
theorem C9_round_trip :
    ∀ (b : Str) (n : Nat) (notes secs : List Str) (title : Option Str),
      1 ≤ n → notes.length = n → secs.length = n → '\n' ∉ b →
      (∀ t, title = some t → '\n' ∉ t) →
      (∀ s ∈ secs, ∀ l ∈ splitOnNl (strip s), parsePage b l = none) →
      parseEmbedRefs b (build_markdown b n notes secs title) = List.range' 1 n := by
  intro b n notes secs title hn hnlen hslen hb ht hsec
  have hsecs_ne : secs ≠ [] := by
    intro hcon
    rw [hcon] at hslen
    simp at hslen
    omega
  obtain ⟨s1, srest, hs1⟩ := List.exists_cons_of_ne_nil hsecs_ne
  simp only [build_markdown, parseEmbedRefs]
  rw [normalizeSections_self hslen]
  set r := b ++ (".pdf").toList with hr
  set FM := frontmatterLines title notes with hFM
  set BL := bodyLines r 1 secs with hBL
  obtain ⟨M, j, m, c, hdec, hlast, hcsp⟩ := body_decomp r secs hsecs_ne 1
  have hm_ne : m ≠ [] := by
    intro hcon
    rw [hcon] at hlast
    simp at hlast
  have hL : FM ++ BL = ((FM ++ M) ++ [m]) ++ List.replicate j [] := by
    rw [hBL, hdec]
    simp [List.append_assoc]
  have hMstar_ne : (FM ++ M) ++ [m] ≠ [] := by simp
  have hjoin : joinLines (FM ++ BL) =
      joinLines ((FM ++ M) ++ [m]) ++ List.replicate j '\n' := by
    rw [hL, joinLines_append_replicate _ hMstar_ne]
  have hhead : ∃ (l0 : Str) (ls : List Str) (c0 : Char),
      FM ++ BL = l0 :: ls ∧ l0.head? = some c0 ∧ isPySpace c0 = false := by
    rcases frontmatterLines_shape title notes with hfe | ⟨T, hT⟩
    · obtain ⟨ls, hls⟩ := bodyLines_head r 1 s1 srest
      refine ⟨embedLine r 1, ls, '!', ?_, rfl, by decide⟩
      have hFM0 : FM = [] := by rw [hFM]; exact hfe
      rw [hFM0, List.nil_append, hBL, hs1, hls]
    · refine ⟨("---").toList, T ++ BL, '-', ?_, rfl, by decide⟩
      rw [hFM, hT]
      rfl
  have hstrip : strip (joinLines (FM ++ BL)) = joinLines ((FM ++ M) ++ [m]) := by
    obtain ⟨l0, ls, c0, hL0, hl0h, hc0⟩ := hhead
    have hlt : ltrim (joinLines (FM ++ BL)) = joinLines (FM ++ BL) := by
      rw [hL0]
      obtain ⟨rr, hrr⟩ := joinLines_head l0 ls
      rw [hrr]
      exact ltrim_append_of_head hl0h hc0
    rw [strip, hlt, hjoin, rtrim_append_replicate]
    have hjl : (joinLines ((FM ++ M) ++ [m])).getLast? = some c := by
      obtain ⟨pre, hpre⟩ := joinLines_append_single (FM ++ M) m
      rw [hpre, List.getLast?_append_of_ne_nil pre hm_ne, hlast]
    exact rtrim_eq_self hjl hcsp
  rw [hstrip]
  have hsplitNl : splitOnNl (joinLines ((FM ++ M) ++ [m]) ++ ['\n']) =
      splitOnNl (joinLines ((FM ++ M) ++ [m])) ++ [[]] := by
    have h := splitOnNl_append_nl (joinLines ((FM ++ M) ++ [m])) []
    simpa using h
  rw [hsplitNl, List.filterMap_append, splitOnNl_joinLines _ hMstar_ne,
    filterMap_flatMap_split]
  have hnil : List.filterMap (parsePage b) [[]] = [] := by
    rw [List.filterMap_cons, parsePage_none_of_head b [] (by simp)]
    rfl
  rw [hnil, List.append_nil]
  have hfull : (FM ++ BL).flatMap (lineRefs b) = List.range' 1 n := by
    rw [List.flatMap_append]
    have hFMnil : FM.flatMap (lineRefs b) = [] := by
      rw [hFM]
      exact List.flatMap_eq_nil_iff.mpr (fm_lineRefs ht)
    rw [hFMnil, List.nil_append, hBL, hr, body_lineRefs hb secs 1 hsec, hslen]
  have hsplit2 : (FM ++ BL).flatMap (lineRefs b) =
      ((FM ++ M) ++ [m]).flatMap (lineRefs b) ++
        (List.replicate j ([] : Str)).flatMap (lineRefs b) := by
    rw [hL, List.flatMap_append]
  have hrep : (List.replicate j ([] : Str)).flatMap (lineRefs b) = [] := by
    refine List.flatMap_eq_nil_iff.mpr ?_
    intro x hx
    rw [List.eq_of_mem_replicate hx]
    exact lineRefs_empty_line b
  rw [hfull, hrep, List.append_nil] at hsplit2
  exact hsplit2.symm

/-- C9 counterexample: a section whose text is itself an embed-reference
line makes the parse-back return two references for N = 1, so the claim
does not hold for every section list. -/
theorem C9_counterexample :
    parseEmbedRefs ("b").toList
        (build_markdown ("b").toList 1 [[]] [("![[b.pdf#page=2]]").toList] none) ≠
      List.range' 1 1 := by
  decide

/-- C9 witness: a two-slide document with benign sections parses back to
pages [1, 2]. -/
theorem C9_round_trip_witness :
    parseEmbedRefs ("Lec").toList
      (build_markdown ("Lec").toList 2 [("note").toList, []]
        [("alpha").toList, []] none) = List.range' 1 2 :=
  C9_round_trip ("Lec").toList 2 [("note").toList, []] [("alpha").toList, []] none
    (by decide) (by decide) (by decide) (by decide)
    (fun t ht => Option.noConfusion ht) (by decide)
